import Mathlib

/-!
Verification of the EmotionSense backend
(`emotionsense/backend/app/services/preprocessing.py` and
`emotionsense/backend/app/services/storage.py`) against its
natural-language specification.

The Python code is shallowly embedded: PIL, numpy/torch and `base64` are
external libraries and appear as abstract parameters (a pixel-resampling
kernel, a luminance kernel, a base64 decoder, an ISO-timestamp parser, an
`exp` function); everything written in the repository itself is translated
definition-by-definition below.  Machine floats are idealised as `Rat`;
datetimes are idealised as an integer time scale (seconds), with an
explicit `Bool` flag recording whether a parsed datetime is
timezone-aware, because Python raises `TypeError` when an aware datetime
is compared with a naive one.
-/

namespace EmotionSense

/-! ### Constants (`preprocessing.py`, `config.py`) -/

/-- `TARGET_SIZE = (48, 48)` -/
def TARGET_SIZE : Nat × Nat := (48, 48)

/-- `EMOTIONS = ["Angry", "Disgust", "Fear", "Happy", "Neutral", "Sad", "Surprise"]` -/
def EMOTIONS : List String :=
  ["Angry", "Disgust", "Fear", "Happy", "Neutral", "Sad", "Surprise"]

/-- `settings.MAX_FRAME_SIZE = 512 * 512` (`config.py`) -/
def MAX_FRAME_SIZE : Nat := 512 * 512

/-! ### PIL images, abstractly

A PIL image exposes a mode, a width, a height and (for our purposes) a
grayscale band accessor returning 8-bit pixel values; `Fin 256` records
the uint8 storage PIL uses for mode `L`. -/

/-- PIL image mode: `L` is single-channel grayscale, `other` covers RGB etc. -/
inductive Mode where
  | L : Mode
  | other : Mode
deriving DecidableEq, Repr

/-- PIL resampling filters (`Image.Resampling`). -/
inductive Filter where
  | NEAREST : Filter
  | BILINEAR : Filter
  | BICUBIC : Filter
  | LANCZOS : Filter
deriving DecidableEq, Repr

/-- A PIL image: mode, dimensions, and a row/column pixel accessor for the
grayscale band (uint8, hence `Fin 256`). -/
structure PILImage where
  mode : Mode
  width : Nat
  height : Nat
  pix : Nat → Nat → Fin 256

/-- The parts of PIL the pipeline calls, as abstract kernels: `lum` is the
pixel computation of `convert('L')`, `resample` the pixel computation of
`resize(size, filter)`.  Both produce uint8 values, which is PIL's
contract for mode-`L` images. -/
structure PILLib where
  lum : PILImage → Nat → Nat → Fin 256
  resample : Filter → PILImage → Nat × Nat → Nat → Nat → Fin 256

/-- `image.convert('L')`: same dimensions, mode `L`, luminance pixels. -/
def PILLib.convertL (lib : PILLib) (img : PILImage) : PILImage :=
  { mode := Mode.L, width := img.width, height := img.height, pix := lib.lum img }

/-- `image.resize(size, filter)`: requested dimensions, same mode,
resampled pixels. -/
def PILLib.resize (lib : PILLib) (img : PILImage) (size : Nat × Nat)
    (f : Filter) : PILImage :=
  { mode := img.mode, width := size.1, height := size.2,
    pix := lib.resample f img size }

/-- A 4-axis tensor of rationals (idealised float32). -/
abbrev Tensor4 := List (List (List (List Rat)))

/-- `np.array(image, dtype=np.float32) / 255.0` on a mode-`L` image:
a height×width grid of pixel values divided by 255. -/
def np_normalize (img : PILImage) : List (List Rat) :=
  (List.range img.height).map fun i =>
    (List.range img.width).map fun j => ((img.pix i j : Nat) : Rat) / 255

/-! ### `decode_base64_frame`

`base64.b64decode` and `Image.open` are external; they are passed in as
abstract partial functions (`none` = the library raised).  The Python
function wraps both calls in one `try` whose handler raises
`ValueError("Invalid base64 image format")`, so both failure modes
produce that single error. -/

/-- `decode_base64_frame(frame_base64)` over abstract `b64decode` (into an
abstract byte type `β`) and `Image.open`. -/
def decode_base64_frame {β : Type} (b64decode : String → Option β)
    (image_open : β → Option PILImage) (frame_base64 : String) :
    Except String PILImage :=
  match b64decode frame_base64 with
  | none => .error "Invalid base64 image format"
  | some image_data =>
    match image_open image_data with
    | none => .error "Invalid base64 image format"
    | some image => .ok image

/-! ### `validate_image_size` -/

/-- `validate_image_size(image)`: raises when
`image.width * image.height > settings.MAX_FRAME_SIZE`, else returns `True`. -/
def validate_image_size (image : PILImage) : Except String Bool :=
  if image.width * image.height > MAX_FRAME_SIZE then
    .error "Image too large"
  else
    .ok true

/-! ### `preprocess_frame` -/

/-- `preprocess_frame(frame_base64)`: decode, validate size, convert to
grayscale if needed, resize to `TARGET_SIZE` with `LANCZOS`, divide by
255, add batch and channel dimensions.  `decode` stands for the composite
`decode_base64_frame` call (the abstract base64/PIL stage). -/
def preprocess_frame (lib : PILLib) (decode : String → Option PILImage)
    (frame_base64 : String) : Except String Tensor4 :=
  match decode frame_base64 with
  | none => .error "Invalid base64 image format"
  | some image =>
    if image.width * image.height > MAX_FRAME_SIZE then
      .error "Image too large"
    else
      let image1 := if image.mode ≠ Mode.L then lib.convertL image else image
      let image2 := lib.resize image1 TARGET_SIZE Filter.LANCZOS
      let img_array := np_normalize image2
      .ok [[img_array]]

/-- Modelled from the spec: the §4.2 `normalize` pipeline, written
step-by-step exactly as the spec orders it — (1) grayscale if not already,
(2) resize to 48×48 with Lanczos, (3) divide by 255.0,
(4) reshape to (batch=1, channel=1, height=48, width=48). -/
def spec_normalize (lib : PILLib) (image : PILImage) : Tensor4 :=
  let gray := if image.mode ≠ Mode.L then lib.convertL image else image
  let resized := lib.resize gray (48, 48) Filter.LANCZOS
  let rescaled :=
    (List.range resized.height).map fun i =>
      (List.range resized.width).map fun j =>
        ((resized.pix i j : Nat) : Rat) / 255
  [[rescaled]]

/-! ### Tensor shape and range predicates -/

/-- The tensor has shape (1, 1, 48, 48). -/
def hasShape1x1x48x48 (t : Tensor4) : Prop :=
  t.length = 1 ∧ ∀ a ∈ t, a.length = 1 ∧ ∀ b ∈ a, b.length = 48 ∧
    ∀ r ∈ b, r.length = 48

/-- Every entry of the tensor lies in [0, 1]. -/
def valuesIn01 (t : Tensor4) : Prop :=
  ∀ a ∈ t, ∀ b ∈ a, ∀ r ∈ b, ∀ v ∈ r, 0 ≤ v ∧ v ≤ 1

lemma np_normalize_mem_bounds (img : PILImage) :
    ∀ r ∈ np_normalize img, ∀ v ∈ r, 0 ≤ v ∧ v ≤ 1 := by
  intro r hr v hv
  simp only [np_normalize, List.mem_map, List.mem_range] at hr
  obtain ⟨i, -, rfl⟩ := hr
  simp only [List.mem_map, List.mem_range] at hv
  obtain ⟨j, -, rfl⟩ := hv
  have hlt : (img.pix i j : Nat) ≤ 255 := Nat.lt_succ_iff.mp (img.pix i j).isLt
  constructor
  · positivity
  · rw [div_le_one (by norm_num)]
    exact_mod_cast hlt

lemma np_normalize_shape (img : PILImage) :
    (np_normalize img).length = img.height ∧
      ∀ r ∈ np_normalize img, r.length = img.width := by
  refine ⟨by simp [np_normalize], ?_⟩
  intro r hr
  simp only [np_normalize, List.mem_map, List.mem_range] at hr
  obtain ⟨i, -, rfl⟩ := hr
  simp

end EmotionSense

namespace EmotionSense

/-! ## Claims about the preprocessing pipeline -/

/-- **C1.** For every well-formed base64 image (decodable and within the
size cap), `preprocess_frame` returns a tensor of shape (1, 1, 48, 48)
whose values all lie in [0, 1] — for every PIL backend `lib` and decoder. -/
theorem preprocess_frame_shape_and_range (lib : PILLib)
    (decode : String → Option PILImage) (frame : String) (img : PILImage)
    (hdec : decode frame = some img)
    (hcap : img.width * img.height ≤ MAX_FRAME_SIZE) :
    ∃ t : Tensor4, preprocess_frame lib decode frame = .ok t ∧
      hasShape1x1x48x48 t ∧ valuesIn01 t := by
  refine ⟨[[np_normalize
      (lib.resize (if img.mode ≠ Mode.L then lib.convertL img else img)
        TARGET_SIZE Filter.LANCZOS)]], ?_, ?_, ?_⟩
  · simp only [preprocess_frame, hdec]
    rw [if_neg (by omega)]
  · constructor
    · rfl
    · intro a ha
      simp only [List.mem_singleton] at ha
      subst ha
      refine ⟨rfl, ?_⟩
      intro b hb
      simp only [List.mem_singleton] at hb
      subst hb
      have h := np_normalize_shape
        (lib.resize (if img.mode ≠ Mode.L then lib.convertL img else img)
          TARGET_SIZE Filter.LANCZOS)
      exact ⟨h.1, h.2⟩
  · intro a ha
    simp only [List.mem_singleton] at ha
    subst ha
    intro b hb
    simp only [List.mem_singleton] at hb
    subst hb
    exact np_normalize_mem_bounds _

/-- **C1 witness**: a concrete 1×1 backend/decoder instance. -/
theorem preprocess_frame_shape_and_range_witness :
    ∃ t : Tensor4,
      preprocess_frame
        ⟨fun _ _ _ => 0, fun _ _ _ _ _ => 0⟩
        (fun _ => some ⟨Mode.L, 1, 1, fun _ _ => 0⟩) "x" = .ok t ∧
      hasShape1x1x48x48 t ∧ valuesIn01 t :=
  preprocess_frame_shape_and_range _ _ "x" _ rfl (by norm_num [MAX_FRAME_SIZE])

/-- **C4.** `validate_image_size` fails exactly when
`width * height > 262144` (so 262144 pixels pass and 262145 are
rejected), and an oversized image is rejected by `preprocess_frame`
before any grayscale conversion or resize: the error is produced
identically for every PIL backend, so neither `convert('L')` nor
`resize` is ever consulted. -/
theorem validate_image_size_spec (img : PILImage)
    (decode : String → Option PILImage) (frame : String)
    (hdec : decode frame = some img) :
    ((validate_image_size img).isOk ↔ img.width * img.height ≤ 262144) ∧
    (img.width * img.height > 262144 →
      ∀ lib : PILLib, preprocess_frame lib decode frame = .error "Image too large") := by
  constructor
  · unfold validate_image_size
    have h262144 : MAX_FRAME_SIZE = 262144 := by norm_num [MAX_FRAME_SIZE]
    rw [h262144]
    by_cases h : img.width * img.height > 262144
    · rw [if_pos h]
      simp [Except.isOk, Except.toBool]
      omega
    · rw [if_neg h]
      simp [Except.isOk, Except.toBool]
      omega
  · intro hbig lib
    simp only [preprocess_frame, hdec]
    rw [if_pos (by simp only [MAX_FRAME_SIZE]; omega)]

/-- **C4 witness**: the boundary images — 512×512 (262144 pixels) passes,
512×512+1 (262145 pixels) is rejected before the backend is consulted. -/
theorem validate_image_size_spec_witness :
    ((validate_image_size ⟨Mode.L, 512, 512, fun _ _ => 0⟩).isOk ↔
        (512 * 512 : Nat) ≤ 262144) ∧
    ((validate_image_size ⟨Mode.L, 262145, 1, fun _ _ => 0⟩).isOk ↔
        (262145 * 1 : Nat) ≤ 262144) ∧
    ((262145 * 1 : Nat) > 262144 →
      ∀ lib : PILLib,
        preprocess_frame lib (fun _ => some ⟨Mode.L, 262145, 1, fun _ _ => 0⟩) "x" =
          .error "Image too large") :=
  ⟨(validate_image_size_spec ⟨Mode.L, 512, 512, fun _ _ => 0⟩
      (fun _ => some ⟨Mode.L, 512, 512, fun _ _ => 0⟩) "x" rfl).1,
   (validate_image_size_spec ⟨Mode.L, 262145, 1, fun _ _ => 0⟩
      (fun _ => some ⟨Mode.L, 262145, 1, fun _ _ => 0⟩) "x" rfl).1,
   (validate_image_size_spec ⟨Mode.L, 262145, 1, fun _ _ => 0⟩
      (fun _ => some ⟨Mode.L, 262145, 1, fun _ _ => 0⟩) "x" rfl).2⟩

/-- **C5.** On every decodable in-cap input, `preprocess_frame` computes
exactly the spec's ordered pipeline — grayscale conversion (when not
already mode `L`), then a 48×48 Lanczos resize, then division by 255.0,
then the (1,1,48,48) reshape — for every PIL backend. -/
theorem preprocess_frame_refines_spec_pipeline (lib : PILLib)
    (decode : String → Option PILImage) (frame : String) (img : PILImage)
    (hdec : decode frame = some img)
    (hcap : img.width * img.height ≤ MAX_FRAME_SIZE) :
    preprocess_frame lib decode frame = .ok (spec_normalize lib img) := by
  simp only [preprocess_frame, hdec]
  rw [if_neg (by omega)]
  rfl

/-- **C5 witness**: the pipeline equation at a concrete backend and image. -/
theorem preprocess_frame_refines_spec_pipeline_witness :
    preprocess_frame
        ⟨fun _ _ _ => 7, fun _ _ _ _ _ => 7⟩
        (fun _ => some ⟨Mode.other, 2, 3, fun _ _ => 7⟩) "x" =
      .ok (spec_normalize ⟨fun _ _ _ => 7, fun _ _ _ _ _ => 7⟩
            ⟨Mode.other, 2, 3, fun _ _ => 7⟩) :=
  preprocess_frame_refines_spec_pipeline _ _ "x" _ rfl
    (by norm_num [MAX_FRAME_SIZE])

/-- **C6 counterexample.** The claim asserts the base64-failure path
yields a `DecodeError` with message "invalid encoding"; on the code both
failure paths raise the single `ValueError("Invalid base64 image
format")`, so at a decoder that rejects the input the claimed message is
wrong. -/
theorem decode_base64_frame_distinct_messages_false :
    ¬ (decode_base64_frame (β := Unit) (fun _ => none) (fun _ => none) "!" =
        .error "invalid encoding" ∧
       decode_base64_frame (β := Unit) (fun _ => some ()) (fun _ => none) "!" =
        .error "unsupported/corrupt image") := by
  intro h
  exact absurd h.1 (by simp [decode_base64_frame])

/-- **C6 (amended).** Both failure cases of `decode_base64_frame` — base64
decoding fails, or base64 succeeds but the image codec cannot parse the
bytes — raise the same `ValueError` with message
"Invalid base64 image format"; the two cases are not distinguishable by
the caller. -/
theorem decode_base64_frame_single_message {β : Type}
    (b64decode : String → Option β) (image_open : β → Option PILImage)
    (s : String) :
    (b64decode s = none →
      decode_base64_frame b64decode image_open s =
        .error "Invalid base64 image format") ∧
    (∀ bs, b64decode s = some bs → image_open bs = none →
      decode_base64_frame b64decode image_open s =
        .error "Invalid base64 image format") := by
  constructor
  · intro h
    simp [decode_base64_frame, h]
  · intro bs h1 h2
    simp [decode_base64_frame, h1, h2]

/-- **C6 (amended) witness**: both failure modes at concrete decoders
produce the identical error value. -/
theorem decode_base64_frame_single_message_witness :
    decode_base64_frame (β := Unit) (fun _ => none) (fun _ => none) "!" =
      .error "Invalid base64 image format" ∧
    decode_base64_frame (β := Unit) (fun _ => some ()) (fun _ => none) "!" =
      .error "Invalid base64 image format" :=
  ⟨(decode_base64_frame_single_message (fun _ => none) (fun _ => none) "!").1 rfl,
   (decode_base64_frame_single_message (fun _ => some ()) (fun _ => none) "!").2
      () rfl rfl⟩

/-! ### `postprocess_predictions`

`torch.nn.functional.softmax` is modelled with an abstract `exp`
(positivity is the only property used, stated as a hypothesis where
needed); `torch.max(v, dim=0)` returns the maximum together with the
index of its first occurrence, which is PyTorch's documented tie rule. -/

/-- Exact softmax over one row: `exp xᵢ / Σⱼ exp xⱼ`. -/
def softmax (exp : Rat → Rat) (l : List Rat) : List Rat :=
  l.map fun x => exp x / (l.map exp).sum

/-- `torch.max(v, dim=0)`: `(max value, index of its first occurrence)`,
`(0, 0)` on the empty vector (unreachable: torch raises there). -/
def torch_max : List Rat → Rat × Nat
  | [] => (0, 0)
  | [x] => (x, 0)
  | x :: y :: rest =>
    let m := torch_max (y :: rest)
    if m.1 > x then (m.1, m.2 + 1) else (x, 0)

/-- The result dictionary of `postprocess_predictions`. -/
structure PostResult where
  emotion : String
  confidence : Rat
  all_emotions : List (String × Rat)
deriving Repr, DecidableEq

/-- `postprocess_predictions(logits)`: softmax over dim 1 then row 0,
`torch.max` for top prediction, label lookup, full label→probability map
built over `range(len(EMOTIONS))`. -/
def postprocess_predictions (exp : Rat → Rat) (logits : List (List Rat)) :
    PostResult :=
  let probabilities := softmax exp (logits.getD 0 [])
  let cm := torch_max probabilities
  { emotion := EMOTIONS.getD cm.2 ""
    confidence := cm.1
    all_emotions := (List.range EMOTIONS.length).map fun i =>
      (EMOTIONS.getD i "", probabilities.getD i 0) }

lemma torch_max_cons_cons (x y : Rat) (rest : List Rat) :
    torch_max (x :: y :: rest) =
      if (torch_max (y :: rest)).1 > x then
        ((torch_max (y :: rest)).1, (torch_max (y :: rest)).2 + 1)
      else (x, 0) := by
  rfl

lemma torch_max_idx_lt (l : List Rat) (hl : l ≠ []) :
    (torch_max l).2 < l.length := by
  induction l with
  | nil => exact absurd rfl hl
  | cons x t ih =>
    cases t with
    | nil => simp [torch_max]
    | cons y rest =>
      rw [torch_max_cons_cons]
      by_cases h : (torch_max (y :: rest)).1 > x
      · rw [if_pos h]
        have := ih (by simp)
        simpa using Nat.succ_lt_succ this
      · rw [if_neg h]
        simp

lemma torch_max_getD (l : List Rat) (hl : l ≠ []) :
    l.getD (torch_max l).2 0 = (torch_max l).1 := by
  induction l with
  | nil => exact absurd rfl hl
  | cons x t ih =>
    cases t with
    | nil => simp [torch_max]
    | cons y rest =>
      rw [torch_max_cons_cons]
      by_cases h : (torch_max (y :: rest)).1 > x
      · rw [if_pos h]
        simpa using ih (by simp)
      · rw [if_neg h]
        simp

lemma torch_max_is_ub (l : List Rat) :
    ∀ v ∈ l, v ≤ (torch_max l).1 := by
  induction l with
  | nil => simp
  | cons x t ih =>
    cases t with
    | nil => simp [torch_max]
    | cons y rest =>
      intro v hv
      rw [torch_max_cons_cons]
      by_cases h : (torch_max (y :: rest)).1 > x
      · rw [if_pos h]
        rcases List.mem_cons.mp hv with rfl | hv'
        · exact le_of_lt h
        · exact ih v hv'
      · rw [if_neg h]
        rcases List.mem_cons.mp hv with rfl | hv'
        · exact le_refl v
        · exact le_trans (ih v hv') (not_lt.mp h)

lemma torch_max_first (l : List Rat) :
    ∀ j < (torch_max l).2, l.getD j 0 < (torch_max l).1 := by
  induction l with
  | nil => simp [torch_max]
  | cons x t ih =>
    cases t with
    | nil => simp [torch_max]
    | cons y rest =>
      intro j hj
      rw [torch_max_cons_cons] at hj ⊢
      by_cases h : (torch_max (y :: rest)).1 > x
      · rw [if_pos h] at hj ⊢
        cases j with
        | zero => simpa using h
        | succ j' =>
          simp only at hj
          have := ih j' (by omega)
          simpa using this
      · rw [if_neg h] at hj
        simp at hj

lemma sum_map_div (l : List Rat) (c : Rat) :
    (l.map fun x => x / c).sum = l.sum / c := by
  induction l with
  | nil => simp
  | cons x t ih => simp [ih, add_div]

lemma map_range_getD {α : Type} (l : List α) (d : α) :
    (List.range l.length).map (fun i => l.getD i d) = l := by
  apply List.ext_getElem
  · simp
  · intro i h1 h2
    simp only [List.getElem_map, List.getElem_range]
    exact List.getD_eq_getElem l d h2

lemma getD_map_range {α : Type} (f : Nat → α) (n i : Nat) (h : i < n) (d : α) :
    ((List.range n).map f).getD i d = f i := by
  rw [List.getD_eq_getElem _ d (by simpa using h)]
  simp

lemma softmax_length (exp : Rat → Rat) (l : List Rat) :
    (softmax exp l).length = l.length := by
  simp [softmax]

/-- The softmax of a nonempty row sums to exactly 1 (positivity of `exp`). -/
lemma softmax_sum_one (exp : Rat → Rat) (hexp : ∀ x, 0 < exp x)
    (l : List Rat) (hl : l ≠ []) : (softmax exp l).sum = 1 := by
  have hS : 0 < (l.map exp).sum := by
    apply List.sum_pos
    · intro x hx
      obtain ⟨y, -, rfl⟩ := List.mem_map.mp hx
      exact hexp y
    · simpa using hl
  have : softmax exp l = (l.map exp).map fun y => y / (l.map exp).sum := by
    simp [softmax, Function.comp]
  rw [this, sum_map_div, div_self (ne_of_gt hS)]

lemma post_all_emotions (exp : Rat → Rat) (row : List Rat) :
    (postprocess_predictions exp [row]).all_emotions =
      (List.range 7).map fun i =>
        (EMOTIONS.getD i "", (softmax exp row).getD i 0) := rfl

lemma post_confidence (exp : Rat → Rat) (row : List Rat) :
    (postprocess_predictions exp [row]).confidence =
      (torch_max (softmax exp row)).1 := rfl

lemma post_emotion (exp : Rat → Rat) (row : List Rat) :
    (postprocess_predictions exp [row]).emotion =
      EMOTIONS.getD (torch_max (softmax exp row)).2 "" := rfl

lemma post_values (exp : Rat → Rat) (row : List Rat) (hrow : row.length = 7) :
    (postprocess_predictions exp [row]).all_emotions.map (fun p => p.2) =
      softmax exp row := by
  rw [post_all_emotions, List.map_map]
  have hc : ((fun p : String × Rat => p.2) ∘ fun i =>
      (EMOTIONS.getD i "", (softmax exp row).getD i 0)) =
      fun i => (softmax exp row).getD i 0 := rfl
  rw [hc]
  have h7 : (7 : Nat) = (softmax exp row).length := by
    rw [softmax_length, hrow]
  rw [h7, map_range_getD]

/-- **C2.** For every (1, 7) logits row (and every positive `exp`
backend), `postprocess_predictions` returns a distribution over the 7
labels summing to 1 within 0.01 (in fact exactly 1), its confidence is
the maximum distribution entry (an upper bound that is attained), and
the selected label is the one at the lowest index among the entries
that are exactly equal to the maximum. -/
theorem postprocess_predictions_spec (exp : Rat → Rat) (row : List Rat)
    (hexp : ∀ x, 0 < exp x) (hrow : row.length = 7) :
    |((postprocess_predictions exp [row]).all_emotions.map
        (fun p => p.2)).sum - 1| ≤ 1 / 100 ∧
    (∀ p ∈ (postprocess_predictions exp [row]).all_emotions,
      p.2 ≤ (postprocess_predictions exp [row]).confidence) ∧
    (∃ p ∈ (postprocess_predictions exp [row]).all_emotions,
      p.2 = (postprocess_predictions exp [row]).confidence) ∧
    (∃ i < EMOTIONS.length,
      ((postprocess_predictions exp [row]).all_emotions.getD i ("", 0)).2 =
        (postprocess_predictions exp [row]).confidence ∧
      (∀ j < i,
        ((postprocess_predictions exp [row]).all_emotions.getD j ("", 0)).2 <
          (postprocess_predictions exp [row]).confidence) ∧
      (postprocess_predictions exp [row]).emotion = EMOTIONS.getD i "") := by
  have hrne : row ≠ [] := by
    intro h
    rw [h] at hrow
    simp at hrow
  have hplen : (softmax exp row).length = 7 := by rw [softmax_length, hrow]
  have hpne : softmax exp row ≠ [] := by
    intro h
    rw [h] at hplen
    simp at hplen
  have hidx : (torch_max (softmax exp row)).2 < 7 := by
    have := torch_max_idx_lt (softmax exp row) hpne
    omega
  refine ⟨?_, ?_, ?_, ?_⟩
  · rw [post_values exp row hrow, softmax_sum_one exp hexp row hrne]
    norm_num
  · intro p hp
    rw [post_all_emotions] at hp
    obtain ⟨i, hi, rfl⟩ := List.mem_map.mp hp
    rw [List.mem_range] at hi
    rw [post_confidence]
    apply torch_max_is_ub
    show (softmax exp row).getD i 0 ∈ softmax exp row
    rw [List.getD_eq_getElem _ _ (by omega)]
    exact List.getElem_mem _
  · refine ⟨(EMOTIONS.getD (torch_max (softmax exp row)).2 "",
      (softmax exp row).getD (torch_max (softmax exp row)).2 0), ?_, ?_⟩
    · rw [post_all_emotions]
      exact List.mem_map.mpr ⟨_, List.mem_range.mpr hidx, rfl⟩
    · rw [post_confidence]
      exact torch_max_getD _ hpne
  · refine ⟨(torch_max (softmax exp row)).2, by simpa [EMOTIONS] using hidx, ?_, ?_, ?_⟩
    · rw [post_all_emotions, post_confidence,
        getD_map_range _ 7 _ hidx]
      exact torch_max_getD _ hpne
    · intro j hj
      rw [post_all_emotions, post_confidence,
        getD_map_range _ 7 _ (by omega)]
      exact torch_max_first _ j hj
    · rw [post_emotion]

/-- **C2 witness**: the theorem instantiated at the all-zero logits row
with `exp := const 1`. -/
theorem postprocess_predictions_spec_witness :
    |((postprocess_predictions (fun _ => 1)
        [[0, 0, 0, 0, 0, 0, 0]]).all_emotions.map (fun p => p.2)).sum - 1| ≤
      1 / 100 ∧
    (∀ p ∈ (postprocess_predictions (fun _ => 1)
        [[0, 0, 0, 0, 0, 0, 0]]).all_emotions,
      p.2 ≤ (postprocess_predictions (fun _ => 1)
        [[0, 0, 0, 0, 0, 0, 0]]).confidence) ∧
    (∃ p ∈ (postprocess_predictions (fun _ => 1)
        [[0, 0, 0, 0, 0, 0, 0]]).all_emotions,
      p.2 = (postprocess_predictions (fun _ => 1)
        [[0, 0, 0, 0, 0, 0, 0]]).confidence) ∧
    (∃ i < EMOTIONS.length,
      ((postprocess_predictions (fun _ => 1)
          [[0, 0, 0, 0, 0, 0, 0]]).all_emotions.getD i ("", 0)).2 =
        (postprocess_predictions (fun _ => 1)
          [[0, 0, 0, 0, 0, 0, 0]]).confidence ∧
      (∀ j < i,
        ((postprocess_predictions (fun _ => 1)
            [[0, 0, 0, 0, 0, 0, 0]]).all_emotions.getD j ("", 0)).2 <
          (postprocess_predictions (fun _ => 1)
            [[0, 0, 0, 0, 0, 0, 0]]).confidence) ∧
      (postprocess_predictions (fun _ => 1)
          [[0, 0, 0, 0, 0, 0, 0]]).emotion = EMOTIONS.getD i "") :=
  postprocess_predictions_spec (fun _ => 1) [0, 0, 0, 0, 0, 0, 0]
    (fun _ => one_pos) rfl

/-! ### Storage (`storage.py`)

Datetimes are idealised to an integer time scale (seconds); `hours`
becomes `hours * 3600`.  `datetime.fromisoformat(s.replace("Z",
"+00:00"))` is an external library call, abstracted as
`parse : String → Option (Bool × Int)`: `none` models `ValueError`,
`some (aware, t)` a parsed datetime at time `t` whose `Bool` flag records
whether it is timezone-aware.  Python raises `TypeError` when an aware
datetime is ordered against the naive `datetime.utcnow() - timedelta(...)`
cutoff; `TypeError` is not caught by the loop's
`except (ValueError, KeyError)`, so it propagates to the outer handler,
which returns `[]`. -/

/-- The fields of a prediction dict that the storage layer reads.  They
are optional because the code reads them with `p["timestamp"]` guarded by
`except KeyError`, and with `p.get("emotion", "Unknown")` /
`p.get("confidence", 0)`. -/
structure Pred where
  timestamp : Option String
  emotion : Option String
  confidence : Option Rat
deriving DecidableEq, Repr

/-- A stored entry: the prediction fields plus the `stored_at` stamp
`store_prediction` adds (idealised to the integer time scale). -/
structure StoredPred where
  timestamp : Option String
  emotion : Option String
  confidence : Option Rat
  stored_at : Int
deriving DecidableEq, Repr

/-- `{**prediction, "stored_at": ...}` -/
def mkStored (p : Pred) (now : Int) : StoredPred :=
  ⟨p.timestamp, p.emotion, p.confidence, now⟩

/-- `_predictions_store`: a Python dict keyed by `user_id`, modelled as an
association list with first-key update semantics. -/
abbrev Store := List (String × List StoredPred)

/-- Dict read: `store[u]` when present. -/
def Store.lookup : Store → String → Option (List StoredPred)
  | [], _ => none
  | kv :: rest, u => if kv.1 = u then some kv.2 else Store.lookup rest u

/-- Dict write: `store[u] = l`. -/
def Store.insert : Store → String → List StoredPred → Store
  | [], u, l => [(u, l)]
  | kv :: rest, u, l =>
    if kv.1 = u then (u, l) :: rest else kv :: Store.insert rest u l

/-- The list held for a user (`[]` when the key is absent, which is how
every reader of the store treats an unknown user). -/
def userList (st : Store) (u : String) : List StoredPred :=
  (Store.lookup st u).getD []

/-- `store_prediction(user_id, prediction)`: ensure the key, append the
entry with its `stored_at` stamp, then keep only the last 1000
(`store[user_id] = store[user_id][-1000:]` when the length exceeds 1000). -/
def store_prediction (st : Store) (user_id : String) (prediction : Pred)
    (now : Int) : Store :=
  let cur := (Store.lookup st user_id).getD []
  let appended := cur ++ [mkStored prediction now]
  let capped :=
    if appended.length > 1000 then appended.drop (appended.length - 1000)
    else appended
  Store.insert st user_id capped

/-- An entry whose `timestamp` field parses to a timezone-aware datetime:
ordering it against the naive cutoff raises `TypeError`. -/
def tsAware (parse : String → Option (Bool × Int)) (p : StoredPred) : Bool :=
  match p.timestamp with
  | none => false
  | some s =>
    match parse s with
    | none => false
    | some (aware, _) => aware

/-- The loop's keep-condition for one entry: `timestamp` present, parses,
and `timestamp > cutoff_time` (strict). -/
def tsMatches (parse : String → Option (Bool × Int)) (cutoff : Int)
    (p : StoredPred) : Bool :=
  match p.timestamp with
  | none => false
  | some s =>
    match parse s with
    | none => false
    | some (_, t) => cutoff < t

/-- `get_predictions(user_id, limit, hours)`: unknown user → `[]`;
otherwise filter entries newer than `utcnow() - timedelta(hours=hours)`
(entries whose timestamp is missing or unparseable are skipped by
`except (ValueError, KeyError): continue`), then return
`filtered[-limit:]`.  If any reached entry has an aware timestamp the
naive/aware comparison raises `TypeError`, the outer handler fires and
the whole call returns `[]`.  `filtered[-limit:]` with `limit = 0` is
`filtered[0:]`, the whole list. -/
def get_predictions (parse : String → Option (Bool × Int)) (now : Int)
    (st : Store) (user_id : String) (limit : Nat) (hours : Int) :
    List StoredPred :=
  match Store.lookup st user_id with
  | none => []
  | some predictions =>
    let cutoff := now - hours * 3600
    if predictions.any (tsAware parse) then []
    else
      let filtered := predictions.filter (tsMatches parse cutoff)
      if limit = 0 then filtered else filtered.drop (filtered.length - limit)

/-- One step of the counting loop: Python dict insertion-order update
`emotion_counts[emotion] = emotion_counts.get(emotion, 0) + 1`. -/
def bump (counts : List (String × Nat)) (e : String) : List (String × Nat) :=
  match counts with
  | [] => [(e, 1)]
  | (k, v) :: rest =>
    if k = e then (k, v + 1) :: rest else (k, v) :: bump rest e

/-- The label sequence the counting loop sees:
`p.get("emotion", "Unknown")` per prediction. -/
def emotionOf (p : StoredPred) : String := p.emotion.getD "Unknown"

/-- The full counting loop over the labels, in iteration order. -/
def tally (l : List String) : List (String × Nat) :=
  l.foldl bump []

/-- Python `max(items, key=lambda x: x[1])`: the first item (in list
order) with maximal key — Python `max` keeps the earliest of equals. -/
def pymax : List (String × Nat) → Option (String × Nat)
  | [] => none
  | [x] => some x
  | x :: y :: rest =>
    match pymax (y :: rest) with
    | none => some x
    | some m => if m.2 > x.2 then some m else some x

/-- Python `round(x, 4)`: round half to even at the 4th decimal. -/
def pyround4 (q : Rat) : Rat :=
  let s := q * 10000
  let f := ⌊s⌋
  let r := s - (f : Rat)
  let n : Int :=
    if r < 1 / 2 then f
    else if 1 / 2 < r then f + 1
    else if f % 2 = 0 then f else f + 1
  (n : Rat) / 10000

/-- The stats dictionary `get_emotion_stats` returns; `by_emotion` is
`none` in the empty branch, whose dict carries no such key. -/
structure UserStats where
  user_id : String
  total : Nat
  emotion_counts : List (String × Nat)
  dominant_emotion : Option String
  average_confidence : Rat
  by_emotion : Option (List (String × Nat))
deriving DecidableEq, Repr

/-- `get_emotion_stats(user_id, hours)`: recompute from
`get_predictions(user_id, limit=10000, hours=hours)`; zeroed object when
nothing matches; else per-label counts in first-encounter order, Python
`max` for the dominant label, mean confidence rounded to 4 places, and a
stable count-descending listing. -/
def get_emotion_stats (parse : String → Option (Bool × Int)) (now : Int)
    (st : Store) (user_id : String) (hours : Int) : UserStats :=
  let predictions := get_predictions parse now st user_id 10000 hours
  if predictions.isEmpty then
    { user_id := user_id, total := 0, emotion_counts := [],
      dominant_emotion := none, average_confidence := 0, by_emotion := none }
  else
    let emotion_counts := tally (predictions.map emotionOf)
    let total_confidence := (predictions.map fun p => p.confidence.getD 0).sum
    let total := predictions.length
    let avg_confidence :=
      if total > 0 then total_confidence / (total : Rat) else 0
    { user_id := user_id, total := total, emotion_counts := emotion_counts,
      dominant_emotion := (pymax emotion_counts).map fun m => m.1,
      average_confidence := pyround4 avg_confidence,
      by_emotion := some (emotion_counts.mergeSort fun a b => b.2 ≤ a.2) }

/-- Modelled from the spec: the labels of a sequence in
first-encounter order. -/
def firstOccList (l : List String) : List String :=
  l.foldl (fun acc e => if e ∈ acc then acc else acc ++ [e]) []

/-- Modelled from the spec: "dominant label is the argmax of counts with
ties broken by first-encountered-in-insertion-order" — the first maximal
count over the labels listed in first-encounter order. -/
def specDominant (emos : List String) : Option String :=
  (pymax ((firstOccList emos).map fun k => (k, emos.count k))).map fun m => m.1

/-! ### Store lemmas -/

lemma lookup_insert_self (st : Store) (u : String) (l : List StoredPred) :
    Store.lookup (Store.insert st u l) u = some l := by
  induction st with
  | nil => simp [Store.insert, Store.lookup]
  | cons kv rest ih =>
    by_cases h : kv.1 = u
    · simp [Store.insert, Store.lookup, h]
    · simp [Store.insert, Store.lookup, h, ih]

/-- The last 1000 elements, as the code's `lst[-1000:]`. -/
def lastCap (l : List StoredPred) : List StoredPred :=
  l.drop (l.length - 1000)

lemma userList_store_prediction (st : Store) (u : String) (p : Pred)
    (now : Int) :
    userList (store_prediction st u p now) u =
      lastCap (userList st u ++ [mkStored p now]) := by
  simp only [store_prediction, userList, lastCap]
  rw [lookup_insert_self, Option.getD_some]
  by_cases h :
    ((Store.lookup st u).getD [] ++ [mkStored p now]).length > 1000
  · rw [if_pos h]
  · rw [if_neg h,
      show ((Store.lookup st u).getD [] ++ [mkStored p now]).length - 1000 = 0
        from by omega,
      List.drop_zero]

lemma userList_store_prediction_len (st : Store) (u : String) (p : Pred)
    (now : Int) :
    (userList (store_prediction st u p now) u).length ≤ 1000 := by
  rw [userList_store_prediction]
  unfold lastCap
  rw [List.length_drop]
  omega

lemma drop_append_drop (xs ys : List StoredPred) (k m : Nat)
    (hk : k ≤ xs.length) :
    (xs.drop k ++ ys).drop m = ((xs ++ ys).drop k).drop m := by
  rw [List.drop_append_of_le_length hk]

lemma lastCap_append_lastCap (xs ys : List StoredPred) :
    lastCap (lastCap xs ++ ys) = lastCap (xs ++ ys) := by
  unfold lastCap
  rw [List.length_append, List.length_drop, List.length_append,
    drop_append_drop xs ys (xs.length - 1000) _ (Nat.sub_le _ _),
    List.drop_drop]
  have harith :
      xs.length - 1000 + (xs.length - (xs.length - 1000) + ys.length - 1000) =
        xs.length + ys.length - 1000 := by
    omega
  rw [harith]

/-- A sequence of `store_prediction` calls for one user, oldest first. -/
def storeMany (st : Store) (user_id : String) (ps : List (Pred × Int)) :
    Store :=
  ps.foldl (fun s q => store_prediction s user_id q.1 q.2) st

lemma userList_storeMany (u : String) (ps : List (Pred × Int)) (st : Store)
    (hps : ps ≠ []) :
    userList (storeMany st u ps) u =
      lastCap (userList st u ++ ps.map fun q => mkStored q.1 q.2) := by
  induction ps generalizing st with
  | nil => exact absurd rfl hps
  | cons q ps' ih =>
    by_cases h : ps' = []
    · subst h
      simpa [storeMany] using userList_store_prediction st u q.1 q.2
    · have hstep : storeMany st u (q :: ps') =
        storeMany (store_prediction st u q.1 q.2) u ps' := rfl
      rw [hstep, ih (store_prediction st u q.1 q.2) h,
        userList_store_prediction, lastCap_append_lastCap]
      congr 1
      simp

/-- **C7.** After a sequence of more than 1000 `store_prediction` calls
for one user (from any starting store), the store retains exactly the
1000 most recently appended entries in insertion order — the oldest
evicted first — and the per-user list length never exceeds 1000 after any
append. -/
theorem store_prediction_cap (st : Store) (u : String)
    (ps : List (Pred × Int)) (h : ps.length > 1000) :
    userList (storeMany st u ps) u =
      (ps.map fun q => mkStored q.1 q.2).drop (ps.length - 1000) ∧
    ∀ (st2 : Store) (p : Pred) (n : Int),
      (userList (store_prediction st2 u p n) u).length ≤ 1000 := by
  constructor
  · rw [userList_storeMany u ps st (by intro hnil; rw [hnil] at h; simp at h)]
    unfold lastCap
    rw [List.length_append, List.length_map]
    rw [show (userList st u).length + ps.length - 1000 =
        (userList st u).length + (ps.length - 1000) by omega]
    rw [List.drop_append]
  · intro st2 p n
    exact userList_store_prediction_len st2 u p n

/-- **C7 witness**: 1001 appends of one prediction retain the last 1000. -/
theorem store_prediction_cap_witness :
    (List.replicate 1001 ((⟨none, some "Happy", some 1⟩ : Pred), (0 : Int))).length
        > 1000 ∧
    userList (storeMany [] "u"
        (List.replicate 1001 ((⟨none, some "Happy", some 1⟩ : Pred), (0 : Int)))) "u" =
      ((List.replicate 1001 ((⟨none, some "Happy", some 1⟩ : Pred), (0 : Int))).map
          fun q => mkStored q.1 q.2).drop
        ((List.replicate 1001 ((⟨none, some "Happy", some 1⟩ : Pred), (0 : Int))).length
          - 1000) :=
  ⟨by rw [List.length_replicate]; omega,
   (store_prediction_cap [] "u" _ (by rw [List.length_replicate]; omega)).1⟩

/-! ### Query and stats helpers -/

lemma get_predictions_of_empty_userList (parse : String → Option (Bool × Int))
    (now : Int) (st : Store) (u : String) (limit : Nat) (hours : Int)
    (h : userList st u = []) :
    get_predictions parse now st u limit hours = [] := by
  unfold get_predictions
  cases hl : Store.lookup st u with
  | none => rfl
  | some l =>
    unfold userList at h
    rw [hl, Option.getD_some] at h
    subst h
    simp

lemma get_predictions_eq_none (parse : String → Option (Bool × Int))
    (now : Int) (st : Store) (u : String) (limit : Nat) (hours : Int)
    (hl : Store.lookup st u = none) :
    get_predictions parse now st u limit hours = [] := by
  unfold get_predictions
  rw [hl]

lemma get_predictions_eq_some (parse : String → Option (Bool × Int))
    (now : Int) (st : Store) (u : String) (limit : Nat) (hours : Int)
    (l : List StoredPred) (hl : Store.lookup st u = some l) :
    get_predictions parse now st u limit hours =
      if l.any (tsAware parse) then []
      else
        if limit = 0 then l.filter (tsMatches parse (now - hours * 3600))
        else
          (l.filter (tsMatches parse (now - hours * 3600))).drop
            ((l.filter (tsMatches parse (now - hours * 3600))).length - limit) := by
  unfold get_predictions
  rw [hl]

lemma tsAware_eq_true_iff (parse : String → Option (Bool × Int))
    (p : StoredPred) :
    tsAware parse p = true ↔
      ∃ s t, p.timestamp = some s ∧ parse s = some (true, t) := by
  unfold tsAware
  cases hts : p.timestamp with
  | none => simp
  | some s =>
    cases hpr : parse s with
    | none => simp [hpr]
    | some awt =>
      obtain ⟨aw, t⟩ := awt
      cases aw <;> simp [hpr]

lemma tsMatches_eq_true_iff (parse : String → Option (Bool × Int))
    (cutoff : Int) (p : StoredPred) :
    tsMatches parse cutoff p = true ↔
      ∃ s aw t, p.timestamp = some s ∧ parse s = some (aw, t) ∧ cutoff < t := by
  unfold tsMatches
  cases hts : p.timestamp with
  | none => simp
  | some s =>
    cases hpr : parse s with
    | none => simp [hpr]
    | some awt =>
      obtain ⟨aw, t⟩ := awt
      cases aw <;> simp [hpr]

lemma get_predictions_all_bad (parse : String → Option (Bool × Int))
    (now : Int) (st : Store) (u : String) (limit : Nat) (hours : Int)
    (hbad : ∀ r ∈ userList st u, ∀ s, r.timestamp = some s → parse s = none) :
    get_predictions parse now st u limit hours = [] := by
  cases hl : Store.lookup st u with
  | none => exact get_predictions_eq_none parse now st u limit hours hl
  | some l =>
    have hbadl : ∀ r ∈ l, ∀ s, r.timestamp = some s → parse s = none := by
      intro r hr
      apply hbad
      unfold userList
      rw [hl, Option.getD_some]
      exact hr
    have haw : l.any (tsAware parse) = false := by
      rw [Bool.eq_false_iff, Ne, List.any_eq_true]
      rintro ⟨r, hr, hawr⟩
      rw [tsAware_eq_true_iff] at hawr
      obtain ⟨s, t, hts, hpr⟩ := hawr
      rw [hbadl r hr s hts] at hpr
      exact Option.noConfusion hpr
    have hfil : l.filter (tsMatches parse (now - hours * 3600)) = [] := by
      rw [List.filter_eq_nil_iff]
      intro r hr
      intro hcon
      rw [tsMatches_eq_true_iff] at hcon
      obtain ⟨s, aw, t, hts, hpr, -⟩ := hcon
      rw [hbadl r hr s hts] at hpr
      exact Option.noConfusion hpr
    rw [get_predictions_eq_some parse now st u limit hours l hl, haw, hfil]
    simp

lemma stats_zeroed_of_no_predictions (parse : String → Option (Bool × Int))
    (now : Int) (st : Store) (u : String) (hours : Int)
    (h : get_predictions parse now st u 10000 hours = []) :
    get_emotion_stats parse now st u hours =
      ⟨u, 0, [], none, 0, none⟩ := by
  simp only [get_emotion_stats, h]
  rfl

/-- **C3 (code bug).** Append-then-query fails on the system's own
timestamp format: the prediction stored with timestamp
`"2025-10-18T12:34:56Z"` (the default is `utcnow().isoformat() + "Z"`) is
in the store, yet `get_predictions(limit = 1, hours = 8760)` returns `[]`
instead of the just-appended entry — `fromisoformat` on the
`Z → +00:00` rewrite yields a timezone-aware datetime, ordering it
against the naive `utcnow() - timedelta(...)` cutoff raises `TypeError`,
which escapes `except (ValueError, KeyError)` and makes the outer
handler return `[]`. -/
theorem store_then_query_drops_Z_timestamp :
    get_predictions
        (fun s => if s = "2025-10-18T12:34:56Z" then some (true, 1760790896)
          else none)
        1760790900
        (store_prediction [] "u"
          ⟨some "2025-10-18T12:34:56Z", some "Happy", some (9 / 10)⟩
          1760790900)
        "u" 1 8760 = [] ∧
    userList
        (store_prediction [] "u"
          ⟨some "2025-10-18T12:34:56Z", some "Happy", some (9 / 10)⟩
          1760790900)
        "u" =
      [⟨some "2025-10-18T12:34:56Z", some "Happy", some (9 / 10),
        1760790900⟩] := by
  constructor
  · rfl
  · rfl

/-- **C9.** For a user with no stored entries — including one never seen —
`get_emotion_stats` returns the zeroed stats object: total 0, dominant
`None`, average confidence 0.0 (and, being a total function, it never
raises). -/
theorem get_emotion_stats_empty_user (parse : String → Option (Bool × Int))
    (now : Int) (st : Store) (u : String) (hours : Int)
    (h : userList st u = []) :
    get_emotion_stats parse now st u hours =
      ⟨u, 0, [], none, 0, none⟩ :=
  stats_zeroed_of_no_predictions parse now st u hours
    (get_predictions_of_empty_userList parse now st u 10000 hours h)

/-- **C9 witness**: a never-seen user on the empty store. -/
theorem get_emotion_stats_empty_user_witness :
    userList [] "nobody" = [] ∧
    get_emotion_stats (fun _ => none) 0 [] "nobody" 24 =
      ⟨"nobody", 0, [], none, 0, none⟩ :=
  ⟨rfl, get_emotion_stats_empty_user (fun _ => none) 0 [] "nobody" 24 rfl⟩

/-- **C10.** Entries whose prediction dict lacks a `"timestamp"` key or
whose timestamp does not parse are silently invisible to queries: every
entry `get_predictions` returns has a present, parseable (naive)
timestamp newer than the cutoff; `store_prediction` nevertheless stores
every entry identically (so bad-timestamp entries occupy slots under the
1000 cap); and a user whose entries all have missing/unparseable
timestamps gets the zeroed stats. -/
theorem bad_timestamp_entries_invisible
    (parse : String → Option (Bool × Int)) (now : Int) (st : Store)
    (u : String) (limit : Nat) (hours : Int) (q : StoredPred)
    (hq : q ∈ get_predictions parse now st u limit hours) :
    (∃ s t, q.timestamp = some s ∧ parse s = some (false, t) ∧
      now - hours * 3600 < t) ∧
    (∀ (st2 : Store) (p : Pred) (n : Int),
      userList (store_prediction st2 u p n) u =
        lastCap (userList st2 u ++ [mkStored p n])) ∧
    (∀ (st3 : Store) (u3 : String) (hours3 now3 : Int),
      (∀ r ∈ userList st3 u3, ∀ s, r.timestamp = some s → parse s = none) →
      get_emotion_stats parse now3 st3 u3 hours3 =
        ⟨u3, 0, [], none, 0, none⟩) := by
  refine ⟨?_, ?_, ?_⟩
  · cases hl : Store.lookup st u with
    | none =>
      rw [get_predictions_eq_none parse now st u limit hours hl] at hq
      simp at hq
    | some l =>
      rw [get_predictions_eq_some parse now st u limit hours l hl] at hq
      by_cases haw : l.any (tsAware parse) = true
      · rw [if_pos haw] at hq
        simp at hq
      · rw [if_neg haw] at hq
        have hfil : q ∈ l.filter (tsMatches parse (now - hours * 3600)) := by
          by_cases hlim : limit = 0
          · rw [if_pos hlim] at hq
            exact hq
          · rw [if_neg hlim] at hq
            exact List.mem_of_mem_drop hq
        have hmem := List.mem_filter.mp hfil
        have hmatch := hmem.2
        rw [tsMatches_eq_true_iff] at hmatch
        obtain ⟨s, aw, t, hts, hpr, hlt⟩ := hmatch
        cases aw with
        | true =>
          exact absurd (List.any_eq_true.mpr
            ⟨q, hmem.1, (tsAware_eq_true_iff parse q).mpr ⟨s, t, hts, hpr⟩⟩) haw
        | false =>
          exact ⟨s, t, hts, hpr, hlt⟩
  · intro st2 p n
    exact userList_store_prediction st2 u p n
  · intro st3 u3 hours3 now3 hbad
    exact stats_zeroed_of_no_predictions parse now3 st3 u3 hours3
      (get_predictions_all_bad parse now3 st3 u3 10000 hours3 hbad)

/-- **C10 witness**: a store holding one good naive-timestamp entry; it
is returned by the query and satisfies the theorem's conclusion. -/
theorem bad_timestamp_entries_invisible_witness :
    (∃ s t,
      (⟨some "2025-10-18T12:34:56", some "Happy", some 1, 0⟩ : StoredPred).timestamp
          = some s ∧
      (fun s0 => if s0 = "2025-10-18T12:34:56" then some (false, (100 : Int))
        else none) s = some (false, t) ∧
      (50 : Int) - 1 * 3600 < t) ∧
    (∀ (st2 : Store) (p : Pred) (n : Int),
      userList (store_prediction st2 "u" p n) "u" =
        lastCap (userList st2 "u" ++ [mkStored p n])) ∧
    (∀ (st3 : Store) (u3 : String) (hours3 now3 : Int),
      (∀ r ∈ userList st3 u3, ∀ s,
        r.timestamp = some s →
          (fun s0 => if s0 = "2025-10-18T12:34:56" then
            some (false, (100 : Int)) else none) s = none) →
      get_emotion_stats
          (fun s0 => if s0 = "2025-10-18T12:34:56" then
            some (false, (100 : Int)) else none)
          now3 st3 u3 hours3 =
        ⟨u3, 0, [], none, 0, none⟩) :=
  bad_timestamp_entries_invisible
    (fun s0 => if s0 = "2025-10-18T12:34:56" then some (false, (100 : Int))
      else none)
    50
    (store_prediction [] "u"
      ⟨some "2025-10-18T12:34:56", some "Happy", some 1⟩ 0)
    "u" 1 1
    ⟨some "2025-10-18T12:34:56", some "Happy", some 1, 0⟩
    (by decide)

/-! ### Counting-loop characterisation (for C8)

`tally` (the Python dict-building loop) lists each label with its total
count, keyed in first-encounter order — exactly
`(firstOccList l).map fun k => (k, l.count k)`. -/

lemma tally_append (l : List String) (e : String) :
    tally (l ++ [e]) = bump (tally l) e := by
  simp only [tally, List.foldl_append, List.foldl_cons, List.foldl_nil]

lemma firstOccList_append (l : List String) (e : String) :
    firstOccList (l ++ [e]) =
      if e ∈ firstOccList l then firstOccList l
      else firstOccList l ++ [e] := by
  simp only [firstOccList, List.foldl_append, List.foldl_cons, List.foldl_nil]

lemma mem_firstOccList (l : List String) :
    ∀ a, a ∈ firstOccList l ↔ a ∈ l := by
  induction l using List.reverseRecOn with
  | nil => simp [firstOccList]
  | append_singleton l e ih =>
    intro a
    rw [firstOccList_append]
    by_cases he : e ∈ firstOccList l
    · rw [if_pos he]
      have hel : e ∈ l := (ih e).mp he
      rw [ih a]
      simp only [List.mem_append, List.mem_singleton]
      constructor
      · exact Or.inl
      · rintro (h | rfl)
        · exact h
        · exact hel
    · rw [if_neg he]
      simp [ih]

lemma nodup_firstOccList (l : List String) : (firstOccList l).Nodup := by
  induction l using List.reverseRecOn with
  | nil => simp [firstOccList]
  | append_singleton l e ih =>
    rw [firstOccList_append]
    by_cases he : e ∈ firstOccList l
    · rw [if_pos he]
      exact ih
    · rw [if_neg he]
      simp [List.nodup_append, ih, he]

lemma bump_of_mem (keys : List String) (cnt : String → Nat) (e : String)
    (hnd : keys.Nodup) (he : e ∈ keys) :
    bump (keys.map fun k => (k, cnt k)) e =
      keys.map fun k => (k, cnt k + if k = e then 1 else 0) := by
  induction keys with
  | nil => simp at he
  | cons k ks ih =>
    simp only [List.map_cons, bump]
    by_cases hk : k = e
    · subst hk
      rw [if_pos rfl, if_pos rfl]
      congr 1
      apply List.map_congr_left
      intro x hx
      have hxk : x ≠ k := by
        intro hcon
        subst hcon
        exact (List.nodup_cons.mp hnd).1 hx
      simp [hxk]
    · rw [if_neg hk, if_neg hk]
      have he' : e ∈ ks := by
        rcases List.mem_cons.mp he with rfl | h
        · exact absurd rfl hk
        · exact h
      rw [ih (List.nodup_cons.mp hnd).2 he']
      simp

lemma bump_of_not_mem (keys : List String) (cnt : String → Nat) (e : String)
    (he : e ∉ keys) :
    bump (keys.map fun k => (k, cnt k)) e =
      (keys.map fun k => (k, cnt k)) ++ [(e, 1)] := by
  induction keys with
  | nil => rfl
  | cons k ks ih =>
    simp only [List.map_cons, bump]
    have hk : k ≠ e := by
      intro hcon
      exact he (hcon ▸ List.mem_cons_self k ks)
    rw [if_neg hk, ih (fun h => he (List.mem_cons_of_mem k h))]
    simp

lemma tally_eq_firstOcc_counts (l : List String) :
    tally l = (firstOccList l).map fun k => (k, l.count k) := by
  induction l using List.reverseRecOn with
  | nil => rfl
  | append_singleton l e ih =>
    rw [tally_append, ih, firstOccList_append]
    by_cases he : e ∈ firstOccList l
    · rw [if_pos he]
      rw [bump_of_mem (firstOccList l) (fun k => l.count k) e
        (nodup_firstOccList l) he]
      apply List.map_congr_left
      intro k hk
      simp only [List.count_append, List.count_cons, List.count_nil,
        beq_iff_eq]
      by_cases hke : k = e
      · simp [hke]
      · simp [hke, Ne.symm hke]
    · rw [if_neg he]
      have hel : e ∉ l := fun h => he ((mem_firstOccList l e).mpr h)
      rw [bump_of_not_mem (firstOccList l) (fun k => l.count k) e he]
      rw [List.map_append]
      congr 1
      · apply List.map_congr_left
        intro k hk
        have hke : k ≠ e := by
          intro hcon
          subst hcon
          exact he hk
        have hek : ¬ e = k := fun hcon => hke hcon.symm
        simp only [List.count_append, List.count_cons, List.count_nil,
          beq_iff_eq]
        simp [hke, hek]
      · simp only [List.map_cons, List.map_nil]
        congr 2
        rw [List.count_append]
        rw [List.count_eq_zero.mpr hel]
        simp

lemma bump_snd_sum (c : List (String × Nat)) (e : String) :
    ((bump c e).map fun kv => kv.2).sum = ((c.map fun kv => kv.2).sum) + 1 := by
  induction c with
  | nil => rfl
  | cons kv rest ih =>
    obtain ⟨k, v⟩ := kv
    simp only [bump]
    by_cases hk : k = e
    · rw [if_pos hk]
      simp only [List.map_cons, List.sum_cons]
      omega
    · rw [if_neg hk]
      simp only [List.map_cons, List.sum_cons, ih]
      omega

lemma tally_snd_sum (l : List String) :
    ((tally l).map fun kv => kv.2).sum = l.length := by
  induction l using List.reverseRecOn with
  | nil => rfl
  | append_singleton l e ih =>
    rw [tally_append, bump_snd_sum, ih]
    simp

/-! Correctness of `pymax` (Python `max` with `key=lambda x: x[1]`): it
returns an entry of maximal key, and the earliest such entry in list
order — every strictly earlier entry has a strictly smaller key.  Applied
to the first-encounter-ordered count list this is exactly "argmax with
ties broken by first encountered". -/

lemma pymax_cons_cons (x y : String × Nat) (rest : List (String × Nat))
    (m' : String × Nat) (hm' : pymax (y :: rest) = some m') :
    pymax (x :: y :: rest) = if m'.2 > x.2 then some m' else some x := by
  show (match pymax (y :: rest) with
    | none => some x
    | some m => if m.2 > x.2 then some m else some x) =
      if m'.2 > x.2 then some m' else some x
  rw [hm']

lemma pymax_isSome (l : List (String × Nat)) (hl : l ≠ []) :
    ∃ m, pymax l = some m := by
  induction l with
  | nil => exact absurd rfl hl
  | cons x t ih =>
    cases t with
    | nil => exact ⟨x, rfl⟩
    | cons y rest =>
      obtain ⟨m, hm⟩ := ih (by simp)
      rw [pymax_cons_cons x y rest m hm]
      by_cases h : m.2 > x.2
      · exact ⟨m, by rw [if_pos h]⟩
      · exact ⟨x, by rw [if_neg h]⟩

lemma pymax_mem (l : List (String × Nat)) (m : String × Nat)
    (hm : pymax l = some m) : m ∈ l := by
  induction l with
  | nil => exact absurd hm (by simp [pymax])
  | cons x t ih =>
    cases t with
    | nil =>
      simp only [pymax, Option.some.injEq] at hm
      simp [← hm]
    | cons y rest =>
      obtain ⟨m', hm'⟩ := pymax_isSome (y :: rest) (by simp)
      rw [pymax_cons_cons x y rest m' hm'] at hm
      by_cases h : m'.2 > x.2
      · rw [if_pos h] at hm
        obtain rfl := Option.some.injEq _ _ |>.mp hm
        exact List.mem_cons_of_mem x (ih hm')
      · rw [if_neg h] at hm
        obtain rfl := Option.some.injEq _ _ |>.mp hm
        exact List.mem_cons_self _ _

lemma pymax_is_max (l : List (String × Nat)) :
    ∀ m, pymax l = some m → ∀ x ∈ l, x.2 ≤ m.2 := by
  induction l with
  | nil => simp [pymax]
  | cons x t ih =>
    intro m hm
    cases t with
    | nil =>
      simp only [pymax, Option.some.injEq] at hm
      simp [← hm]
    | cons y rest =>
      obtain ⟨m', hm'⟩ := pymax_isSome (y :: rest) (by simp)
      rw [pymax_cons_cons x y rest m' hm'] at hm
      intro v hv
      by_cases h : m'.2 > x.2
      · rw [if_pos h] at hm
        obtain rfl := Option.some.injEq _ _ |>.mp hm
        rcases List.mem_cons.mp hv with rfl | hv'
        · exact le_of_lt h
        · exact ih m' hm' v hv'
      · rw [if_neg h] at hm
        obtain rfl := Option.some.injEq _ _ |>.mp hm
        rcases List.mem_cons.mp hv with rfl | hv'
        · exact le_refl _
        · exact le_trans (ih m' hm' v hv') (Nat.not_lt.mp h)

lemma pymax_first (l : List (String × Nat)) :
    ∀ m, pymax l = some m →
      ∃ i : Nat, l[i]? = some m ∧
        ∀ j < i, ∀ x : String × Nat, l[j]? = some x → x.2 < m.2 := by
  induction l with
  | nil => simp [pymax]
  | cons x t ih =>
    intro m hm
    cases t with
    | nil =>
      simp only [pymax, Option.some.injEq] at hm
      exact ⟨0, by simp [hm], fun j hj v hv => by omega⟩
    | cons y rest =>
      obtain ⟨m', hm'⟩ := pymax_isSome (y :: rest) (by simp)
      rw [pymax_cons_cons x y rest m' hm'] at hm
      by_cases h : m'.2 > x.2
      · rw [if_pos h] at hm
        obtain rfl := Option.some.injEq _ _ |>.mp hm
        obtain ⟨i', hi', hfirst⟩ := ih m' hm'
        refine ⟨i' + 1, by simpa using hi', ?_⟩
        intro j hj v hv
        cases j with
        | zero =>
          simp only [List.getElem?_cons_zero, Option.some.injEq] at hv
          rw [← hv]
          exact h
        | succ j' =>
          simp only [List.getElem?_cons_succ] at hv
          exact hfirst j' (by omega) v hv
      · rw [if_neg h] at hm
        obtain rfl := Option.some.injEq _ _ |>.mp hm
        exact ⟨0, by simp, fun j hj v hv => by omega⟩

/-- `specDominant` really is an argmax: on a nonempty label sequence it
returns a label occurring in the sequence whose count is maximal among
all labels of the sequence. -/
lemma specDominant_is_argmax (emos : List String) (hne : emos ≠ []) :
    ∃ d, specDominant emos = some d ∧ d ∈ emos ∧
      ∀ e ∈ emos, emos.count e ≤ emos.count d := by
  have hfne : firstOccList emos ≠ [] := by
    intro hcon
    cases emos with
    | nil => exact hne rfl
    | cons a l =>
      have : a ∈ firstOccList (a :: l) :=
        (mem_firstOccList (a :: l) a).mpr (List.mem_cons_self a l)
      rw [hcon] at this
      exact absurd this (List.not_mem_nil a)
  have hmapne : (firstOccList emos).map (fun k => (k, emos.count k)) ≠ [] := by
    simpa using hfne
  obtain ⟨m, hm⟩ := pymax_isSome _ hmapne
  obtain ⟨k, hk, hkeq⟩ := List.mem_map.mp (pymax_mem _ m hm)
  refine ⟨m.1, ?_, ?_, ?_⟩
  · unfold specDominant
    rw [hm]
    rfl
  · rw [← hkeq]
    exact (mem_firstOccList emos k).mp hk
  · intro e he
    have hemem : (e, emos.count e) ∈
        (firstOccList emos).map (fun k => (k, emos.count k)) :=
      List.mem_map.mpr ⟨e, (mem_firstOccList emos e).mpr he, rfl⟩
    have := pymax_is_max _ m hm _ hemem
    rw [← hkeq] at this ⊢
    exact this

/-- **C8.** The stats object satisfies both invariants: the values of
`emotion_counts` sum to `total`, and `dominant_emotion` is the label of
maximal count with ties broken in favour of the label first encountered
in insertion order of the matching entries — i.e. it equals
`specDominant` of the matching entries' label sequence. -/
theorem get_emotion_stats_invariants (parse : String → Option (Bool × Int))
    (now : Int) (st : Store) (u : String) (hours : Int) :
    ((get_emotion_stats parse now st u hours).emotion_counts.map
        (fun kv => kv.2)).sum =
      (get_emotion_stats parse now st u hours).total ∧
    (get_emotion_stats parse now st u hours).dominant_emotion =
      specDominant
        ((get_predictions parse now st u 10000 hours).map emotionOf) := by
  by_cases hnil : get_predictions parse now st u 10000 hours = []
  · rw [stats_zeroed_of_no_predictions parse now st u hours hnil, hnil]
    exact ⟨rfl, rfl⟩
  · have hemp : (get_predictions parse now st u 10000 hours).isEmpty = false := by
      cases hc : get_predictions parse now st u 10000 hours with
      | nil => exact absurd hc hnil
      | cons a l => rfl
    simp only [get_emotion_stats, hemp, Bool.false_eq_true, if_false]
    constructor
    · show ((tally
          ((get_predictions parse now st u 10000 hours).map emotionOf)).map
            (fun kv => kv.2)).sum =
        (get_predictions parse now st u 10000 hours).length
      rw [tally_snd_sum, List.length_map]
    · show (pymax (tally
          ((get_predictions parse now st u 10000 hours).map emotionOf))).map
            (fun m => m.1) =
        specDominant ((get_predictions parse now st u 10000 hours).map emotionOf)
      rw [tally_eq_firstOcc_counts]
      rfl

end EmotionSense
